import Mathlib

/-!
Verification of the content-normalization pipeline of `src/libs/utils.ts`.

Strings are modelled as `String` or `List Char`.  The JavaScript regular
expressions of the source are translated into executable Boolean matchers
over `List Char`; the external libraries (remark, highlight.js, the cheerio
DOM) enter either as explicit function parameters or as a small HTML-tree
model, while all logic written in the repository itself (classification
thresholds, branch structure, the DOM rewrite passes) is translated
concretely.
-/

/-- The JavaScript whitespace class matched by the regex token backslash-s and
removed by String.trim: space, tab, LF, VT, FF, CR, NBSP and the Unicode
space separators, line/paragraph separators and BOM. -/
def jsWs (c : Char) : Bool :=
  c.val == 32 || (9 ≤ c.val && c.val ≤ 13) || c.val == 0xa0 || c.val == 0x1680 ||
  (0x2000 ≤ c.val && c.val ≤ 0x200a) || c.val == 0x2028 || c.val == 0x2029 ||
  c.val == 0x202f || c.val == 0x205f || c.val == 0x3000 || c.val == 0xfeff

/-- JavaScript line terminators, after which a multiline caret matches. -/
def isLineTerm (c : Char) : Bool :=
  c.val == 10 || c.val == 13 || c.val == 0x2028 || c.val == 0x2029

/-- The backquote character, U+0060. -/
def tickChar : Char := Char.ofNat 96

/-- The character class a-z of the HTML-tag regexes, case-insensitive. -/
def isTagLetter (c : Char) : Bool :=
  (97 ≤ c.val && c.val ≤ 122) || (65 ≤ c.val && c.val ≤ 90)

/-- The regex digit class 0-9. -/
def isDigitC (c : Char) : Bool := 48 ≤ c.val && c.val ≤ 57

/-- The bullet class of the unordered-list regex. -/
def isBullet (c : Char) : Bool := c == '-' || c == '*' || c == '+'

/-- Model of the JavaScript String.trim: drop leading and trailing
whitespace. -/
def jsTrim (l : List Char) : List Char :=
  ((l.dropWhile jsWs).reverse.dropWhile jsWs).reverse

/-- All suffixes of the text that begin just after a line terminator: the
positions, other than the start of the string, where a multiline caret
matches. -/
def lineStarts : List Char → List (List Char)
  | [] => []
  | c :: rest => (if isLineTerm c then [rest] else []) ++ lineStarts rest

/-- A caret-anchored matcher `p` tried at every line start of the text:
the semantics of a regex with the multiline flag. -/
def multiline (p : List Char → Bool) (l : List Char) : Bool :=
  p l || (lineStarts l).any p

/-- An unanchored matcher `p` tried at every position of the text:
the semantics of an unanchored regex test. -/
def scanP (p : List Char → Bool) : List Char → Bool
  | [] => p []
  | c :: rest => p (c :: rest) || scanP p rest

/-- Matcher for the heading regex at one position: one to six hash marks
followed by a whitespace character (`m` counts the hash marks read so far;
with seven or more hash marks every alternative fails, as in the source
regex). -/
def headingAfter : Nat → List Char → Bool
  | _, [] => false
  | m, c :: rest =>
    if c == '#' then decide (m < 6) && headingAfter (m + 1) rest
    else decide (1 ≤ m) && jsWs c

/-- HEADING_PATTERN at a line start. -/
def headingAt (l : List Char) : Bool := headingAfter 0 l

/-- LIST_PATTERN at a line start: optional whitespace, a bullet, then
whitespace. -/
def listAt (l : List Char) : Bool :=
  match l.dropWhile jsWs with
  | c :: d :: _ => isBullet c && jsWs d
  | _ => false

/-- ORDERED_LIST_PATTERN at a line start: optional whitespace, digits, a
dot, then whitespace. -/
def orderedAt (l : List Char) : Bool :=
  match l.dropWhile jsWs with
  | c :: rest =>
    isDigitC c &&
      (match rest.dropWhile isDigitC with
       | d :: e :: _ => d == '.' && jsWs e
       | _ => false)
  | [] => false

/-- Three backquotes at this position. -/
def ticks3At (l : List Char) : Bool :=
  match l with
  | a :: b :: c :: _ => a == tickChar && b == tickChar && c == tickChar
  | _ => false

/-- The fenced-code-block regex at one position: three backquotes with three
more backquotes somewhere later. -/
def codeBlockAt (l : List Char) : Bool :=
  match l with
  | a :: b :: c :: rest =>
    a == tickChar && b == tickChar && c == tickChar && scanP ticks3At rest
  | _ => false

/-- Some backquote occurs in the list. -/
def hasTickC (l : List Char) : Bool := l.any (fun c => c == tickChar)

/-- The inline-code regex at one position: a backquote, at least one
non-backquote character, then a closing backquote. -/
def inlineCodeAt (l : List Char) : Bool :=
  match l with
  | c :: d :: rest => c == tickChar && !(d == tickChar) && hasTickC rest
  | _ => false

/-- The parenthesised part of the link and image regexes: at least one
character other than a closing parenthesis, then a closing parenthesis. -/
def parenTail (l : List Char) : Bool :=
  match l with
  | c :: rest =>
    !(c == ')') &&
      (match rest.dropWhile (fun d => !(d == ')')) with
       | x :: _ => x == ')'
       | [] => false)
  | [] => false

/-- The closing bracket immediately followed by an opening parenthesis and
its parenthesised part, shared by the link and image regexes. -/
def bracketParen (l : List Char) : Bool :=
  match l with
  | a :: b :: rest => a == ']' && b == '(' && parenTail rest
  | _ => false

/-- The link regex at one position: a bracketed non-empty label followed by
a parenthesised non-empty target. -/
def linkAt (l : List Char) : Bool :=
  match l with
  | a :: c :: rest =>
    a == '[' && !(c == ']') && bracketParen (rest.dropWhile (fun d => !(d == ']')))
  | _ => false

/-- The image regex at one position: an exclamation mark, a bracketed
possibly-empty label, then a parenthesised non-empty target. -/
def imageAt (l : List Char) : Bool :=
  match l with
  | a :: b :: rest =>
    a == '!' && b == '[' && bracketParen (rest.dropWhile (fun d => !(d == ']')))
  | _ => false

/-- After the opening double star and first content character: the first
star encountered must be immediately followed by a second star. -/
def starPairAfter (l : List Char) : Bool :=
  match l with
  | a :: rest =>
    if a == '*' then (match rest with | b :: _ => b == '*' | [] => false)
    else starPairAfter rest
  | [] => false

/-- The double-star bold regex at one position. -/
def boldAt (l : List Char) : Bool :=
  match l with
  | a :: b :: c :: rest =>
    a == '*' && b == '*' && !(c == '*') && starPairAfter rest
  | _ => false

/-- Some star occurs in the list. -/
def hasStarC (l : List Char) : Bool := l.any (fun c => c == '*')

/-- The single-star italic regex at one position. -/
def italicAt (l : List Char) : Bool :=
  match l with
  | a :: b :: rest => a == '*' && !(b == '*') && hasStarC rest
  | _ => false

/-- After the opening double underscore and first content character: the
first underscore encountered must be immediately followed by a second. -/
def underPairAfter (l : List Char) : Bool :=
  match l with
  | a :: rest =>
    if a == '_' then (match rest with | b :: _ => b == '_' | [] => false)
    else underPairAfter rest
  | [] => false

/-- The double-underscore bold regex at one position. -/
def boldUnderAt (l : List Char) : Bool :=
  match l with
  | a :: b :: c :: rest =>
    a == '_' && b == '_' && !(c == '_') && underPairAfter rest
  | _ => false

/-- Some underscore occurs in the list. -/
def hasUnderC (l : List Char) : Bool := l.any (fun c => c == '_')

/-- The single-underscore italic regex at one position. -/
def italicUnderAt (l : List Char) : Bool :=
  match l with
  | a :: b :: rest => a == '_' && !(b == '_') && hasUnderC rest
  | _ => false

/-- The blockquote regex at a line start: a greater-than sign then
whitespace. -/
def quoteAt (l : List Char) : Bool :=
  match l with
  | a :: b :: _ => a == '>' && jsWs b
  | _ => false

/-- After the dashes of the horizontal-rule regex: optional whitespace up to
the end of the string or a line terminator. -/
def hrTail (l : List Char) : Bool :=
  match l with
  | [] => true
  | c :: rest => if isLineTerm c then true else jsWs c && hrTail rest

/-- Dash run of the horizontal-rule regex, counting dashes read so far. -/
def hrAfterDashes : Nat → List Char → Bool
  | m, [] => decide (3 ≤ m)
  | m, c :: rest =>
    if c == '-' then hrAfterDashes (m + 1) rest
    else decide (3 ≤ m) && hrTail (c :: rest)

/-- The horizontal-rule regex at a line start: at least three dashes, then
whitespace up to the end of the line. -/
def hrAt (l : List Char) : Bool := hrAfterDashes 0 l

/-- A vertical bar on the current line, with no line terminator before
it. -/
def barOnLine (l : List Char) : Bool :=
  match l with
  | [] => false
  | c :: rest => if c == '|' then true else !(isLineTerm c) && barOnLine rest

/-- The table-row regex at a line start: optional whitespace, a vertical
bar, at least one further character on the same line, then another
vertical bar on that line. -/
def tableAt (l : List Char) : Bool :=
  match l.dropWhile jsWs with
  | a :: c :: rest => a == '|' && !(isLineTerm c) && barOnLine rest
  | _ => false

/-- The checked-checkbox regex at a line start. -/
def checkboxXAt (l : List Char) : Bool :=
  match l.dropWhile jsWs with
  | a :: b :: c :: _ => a == '[' && b == 'x' && c == ']'
  | _ => false

/-- The unchecked-checkbox regex at a line start. -/
def checkboxBlankAt (l : List Char) : Bool :=
  match l.dropWhile jsWs with
  | a :: b :: c :: _ => a == '[' && b == ' ' && c == ']'
  | _ => false

/-- Some greater-than sign occurs in the list. -/
def hasGtC (l : List Char) : Bool := l.any (fun c => c == '>')

/-- HTML_TAG_PATTERN at one position: an opening angle bracket, an ASCII
letter, then a closing angle bracket somewhere later. -/
def tagAt (l : List Char) : Bool :=
  match l with
  | a :: b :: rest => a == '<' && isTagLetter b && hasGtC rest
  | _ => false

/-- The suffix just after the first closing angle bracket, if any: where the
lazy tag-counting regex resumes after a match. -/
def findTagEnd : List Char → Option (List Char)
  | [] => none
  | c :: rest => if c == '>' then some rest else findTagEnd rest

/-- Global match count of HTML_TAG_COUNT_PATTERN: scan left to right; a
match starts at an opening angle bracket followed by a letter and ends at
the first later closing bracket; scanning resumes after it.  The fuel
argument bounds the number of scan steps; every step consumes at least one
character, so fuel equal to the length of the text is always sufficient. -/
def countHtmlTagsFuel : Nat → List Char → Nat
  | 0, _ => 0
  | n + 1, l =>
    match l with
    | a :: b :: rest =>
      if a == '<' && isTagLetter b then
        match findTagEnd rest with
        | some suffix => 1 + countHtmlTagsFuel n suffix
        | none => countHtmlTagsFuel n (b :: rest)
      else countHtmlTagsFuel n (b :: rest)
    | _ => 0

/-- MARKDOWN_PATTERNS of the source, in source order: the sixteen regex
matchers the classifier counts. -/
def MARKDOWN_PATTERNS : List (List Char → Bool) :=
  [ multiline headingAt, multiline listAt, multiline orderedAt,
    scanP codeBlockAt, scanP inlineCodeAt, scanP linkAt, scanP imageAt,
    scanP boldAt, scanP italicAt, scanP boldUnderAt, scanP italicUnderAt,
    multiline quoteAt, multiline hrAt, multiline tableAt,
    multiline checkboxXAt, multiline checkboxBlankAt ]

/-- The two detection thresholds of the source constant. -/
structure DetectionThreshold where
  MAX_HTML_TAGS : Nat
  MIN_MARKDOWN_PATTERNS : Nat

/-- MARKDOWN_DETECTION_THRESHOLD of the source. -/
def MARKDOWN_DETECTION_THRESHOLD : DetectionThreshold := ⟨5, 2⟩

/-- countMarkdownPatterns of the source: how many of the sixteen pattern
matchers fire on the content. -/
def countMarkdownPatterns (content : String) : Nat :=
  (MARKDOWN_PATTERNS.filter (fun p => p content.data)).length

/-- countHtmlTags of the source. -/
def countHtmlTags (content : String) : Nat :=
  countHtmlTagsFuel content.data.length content.data

/-- hasHtmlTags of the source: the test of HTML_TAG_PATTERN. -/
def hasHtmlTags (content : String) : Bool := scanP tagAt content.data

/-- isMarkdown of the source: empty or blank content is not Markdown; with
HTML tags present the tag and pattern thresholds decide; without tags a
single pattern suffices. -/
def isMarkdown (content : String) : Bool :=
  if content.data.isEmpty || (jsTrim content.data).isEmpty then false
  else if hasHtmlTags content then
    decide (countHtmlTags content < MARKDOWN_DETECTION_THRESHOLD.MAX_HTML_TAGS) &&
      decide (MARKDOWN_DETECTION_THRESHOLD.MIN_MARKDOWN_PATTERNS ≤ countMarkdownPatterns content)
  else decide (0 < countMarkdownPatterns content)

/-- The declared type hint of the source: a string, a sequence of strings,
or absent. -/
inductive ContentType where
  | str (s : String)
  | arr (l : List String)
  | undef

/-- normalizeContentType of the source: a sequence contributes its first
element (absent when the sequence is empty); anything else passes
through. -/
def normalizeContentType : ContentType → Option String
  | .str s => some s
  | .arr l => l.head?
  | .undef => none

/-- formatMarkdownWithHighlight of the source, with the two external
renderers passed as parameters: render Markdown to HTML, then apply the
syntax highlighter. -/
def formatMarkdownWithHighlight (fmtRich fmtMd : String → String)
    (markdown : String) : String :=
  fmtRich (fmtMd markdown)

/-- processMarkdownContent of the source: content that already carries HTML
tags is first reduced back to Markdown, then rendered and highlighted;
otherwise it is rendered and highlighted directly. -/
def processMarkdownContent (fmtRich fmtMd reduce : String → String)
    (content : String) : String :=
  if hasHtmlTags content then
    formatMarkdownWithHighlight fmtRich fmtMd (reduce content)
  else formatMarkdownWithHighlight fmtRich fmtMd content

/-- formatContent of the source, the orchestrator: the external Markdown
renderer, syntax highlighter and HTML-to-Markdown reducer enter as the
function parameters `fmtRich`, `fmtMd` and `reduce`; the branch structure
and the classifier are translated concretely (the development-only debug
log of the source has no observable effect and is omitted). -/
def formatContent (fmtRich fmtMd reduce : String → String)
    (content : String) (contentType : ContentType) : String :=
  let n := normalizeContentType contentType
  if n = some "markdown" then processMarkdownContent fmtRich fmtMd reduce content
  else if n = some "html" then fmtRich content
  else if isMarkdown content then formatMarkdownWithHighlight fmtRich fmtMd content
  else fmtRich content

/-- htmlToMarkdown of the source.  The body of its try block — parsing with
the external DOM library and running the conversion passes — is abstracted
as the `convert` parameter, whose error case models a raised exception;
the catch clause returns the original HTML unchanged. -/
def htmlToMarkdown (convert : String → Except String String)
    (html : String) : String :=
  match convert html with
  | .ok markdown => markdown
  | .error _ => html

/-- A node of the parsed HTML document: an element with tag name, attribute
list and children, or a text node.  Text produced by a conversion pass is
stored as a text node, as the DOM library does when replacement markup
contains no tags. -/
inductive HNode where
  | elem (tag : String) (attrs : List (String × String)) (children : List HNode)
  | text (s : String)

/-- Attribute lookup, first match wins. -/
def getAttr : List (String × String) → String → Option String
  | [], _ => none
  | a :: rest, name => if a.1 == name then some a.2 else getAttr rest name

mutual

/-- Number of nodes of a tree: an executable size measure used as recursion
fuel by the traversals below (any fuel at least the tree depth gives the
same result, and the node count always suffices). -/
def sizeHN : HNode → Nat
  | .text _ => 1
  | .elem _ _ cs => 1 + sizeHNList cs

/-- Total node count of a forest. -/
def sizeHNList : List HNode → Nat
  | [] => 0
  | c :: cs => sizeHN c + sizeHNList cs

end

/-- Concatenated text of all descendant text nodes, as the DOM text
accessor computes it.  The fuel bounds the recursion depth; fuel equal to
the size of the node is always sufficient. -/
def textOfNodeF : Nat → HNode → String
  | _, .text s => s
  | 0, .elem _ _ _ => ""
  | n + 1, .elem _ _ cs => String.join (cs.map (textOfNodeF n))

/-- Concatenated descendant text of a node. -/
def textOfNode (t : HNode) : String := textOfNodeF (sizeHN t) t

/-- The node reached from `t` by following a path of child indices. -/
def getAt : HNode → List Nat → Option HNode
  | t, [] => some t
  | .text _, _ :: _ => none
  | .elem _ _ cs, i :: p =>
    match cs[i]? with
    | some c => getAt c p
    | none => none

/-- Replace the node at the given path, leaving the tree unchanged when the
path does not exist. -/
def replaceAt : HNode → List Nat → HNode → HNode
  | _, [], r => r
  | .text s, _ :: _, _ => .text s
  | .elem t a cs, i :: p, r =>
    match cs[i]? with
    | some c => .elem t a (cs.set i (replaceAt c p r))
    | none => .elem t a cs

/-- Paths, in document order, of every `li` element that has a strict
ancestor with tag `anc`: the selection snapshot of the descendant selector
the list passes use.  Fuel bounds the depth. -/
def collectLiF (fuel : Nat) (anc : String) (inAnc : Bool) (path : List Nat)
    (t : HNode) : List (List Nat) :=
  match fuel, t with
  | _, .text _ => []
  | 0, .elem _ _ _ => []
  | n + 1, .elem tag _ cs =>
    (if tag == "li" && inAnc then [path] else []) ++
      (cs.enum.map
        (fun ic => collectLiF n anc (inAnc || tag == anc) (path ++ [ic.1]) ic.2)).flatten

/-- Snapshot of the `li` descendants of `anc` elements in document
order. -/
def collectLi (anc : String) (t : HNode) : List (List Nat) :=
  collectLiF (sizeHN t) anc false [] t

/-- Whether a node is an element: only element nodes appear in the DOM
children collection used for sibling indexing. -/
def isElemNode : HNode → Bool
  | .elem _ _ _ => true
  | .text _ => false

/-- Whether a node is a list item element. -/
def isLi : HNode → Bool
  | .elem t _ _ => t == "li"
  | .text _ => false

/-- One iteration of the unordered-list pass: replace the list item at the
path by the text `- ` followed by its text content and a newline.  The
item is looked up in the current, already partially rewritten tree, as the
in-place DOM mutation of the source does. -/
def ulLiStep (t : HNode) (p : List Nat) : HNode :=
  match getAt t p with
  | some n =>
    if isLi n then replaceAt t p (.text ("- " ++ textOfNode n ++ "\n")) else t
  | none => t

/-- One iteration of the ordered-list pass: the position is one plus the
index of the item among the element children of its parent in the current
tree — list items already replaced by text nodes in earlier iterations no
longer count, exactly as the live sibling indexing of the source
behaves. -/
def olLiStep (t : HNode) (p : List Nat) : HNode :=
  match getAt t p with
  | some n =>
    if isLi n then
      match p.getLast? with
      | some idx =>
        match getAt t p.dropLast with
        | some (.elem _ _ cs) =>
          let index := ((cs.take idx).filter isElemNode).length + 1
          replaceAt t p (.text (toString index ++ ". " ++ textOfNode n ++ "\n"))
        | _ => t
      | none => t
    else t
  | none => t

/-- convertLists of the source: first every unordered list item becomes
`- text`, then every ordered list item becomes `index. text`, where both
passes run over a selection snapshot taken before the pass and mutate the
tree in place between iterations. -/
def convertLists (t : HNode) : HNode :=
  let t1 := (collectLi "ul" t).foldl ulLiStep t
  (collectLi "ol" t1).foldl olLiStep t1

/-- Split a character list at whitespace runs, the token list used by the
DOM class-attribute manipulation. -/
def splitWsL : List Char → List (List Char)
  | [] => [[]]
  | c :: rest =>
    if jsWs c then [] :: splitWsL rest
    else
      match splitWsL rest with
      | t :: ts => (c :: t) :: ts
      | [] => [[c]]

/-- The fixed highlighting marker class added by the source. -/
def hljsWord : List Char := "hljs".data

/-- Whether the class-attribute value lists the hljs marker class as one of
its whitespace-separated words. -/
def hasWordHljs (l : List Char) : Bool := decide (hljsWord ∈ splitWsL l)

/-- The replace call of the source on the class value: remove one leading
occurrence of the text `language-`. -/
def stripLangTag (s : String) : String :=
  if "language-".data.isPrefixOf s.data then String.mk (s.data.drop 9) else s

/-- The split call of the source: the first whitespace-delimited segment,
which is empty when the value is empty or starts with whitespace. -/
def firstWsToken (s : String) : String :=
  String.mk (s.data.takeWhile (fun c => !(jsWs c)))

/-- Language-token extraction of the source highlight helper: strip the
`language-` marker, then take the first whitespace-delimited segment. -/
def extractLanguage (lang : String) : String := firstWsToken (stripLangTag lang)

/-- The inner highlight helper of formatRichText.  The external highlighter
enters as two parameters: `hl lang text` is the language-directed
highlighter, returning none when it raises on an unrecognized language,
and `auto` is automatic detection, which never raises.  An absent or empty
class value and a highlighter failure both fall back to automatic
detection. -/
def highlightHelper (hl : String → String → Option String)
    (auto : String → String) (text lang : String) : String :=
  if lang == "" then auto text
  else
    match hl (extractLanguage lang) text with
    | some v => v
    | none => auto text

/-- Overwrite the class attribute with a new value, keeping other
attributes. -/
def setAttrClass (attrs : List (String × String)) (v : String) :
    List (String × String) :=
  attrs.map (fun a => if a.1 == "class" then ("class", v) else a)

/-- The addClass call of the source: append the hljs marker class to the
class attribute unless it is already listed, creating the attribute when
missing. -/
def addClassHljs (attrs : List (String × String)) : List (String × String) :=
  match getAttr attrs "class" with
  | none => attrs ++ [("class", "hljs")]
  | some c => if hasWordHljs c.data then attrs else setAttrClass attrs (c ++ " hljs")

/-- formatRichText of the source on the parsed tree: every code element
with a pre ancestor has its text content highlighted — with the language
token extracted from its class attribute, or automatic detection when the
attribute is absent or empty — its children replaced by the highlighted
markup, and the hljs marker class added.  Fuel bounds the recursion depth;
the node count always suffices. -/
def formatRichTextNodeF (fuel : Nat) (hl : String → String → Option String)
    (auto : String → String) (inPre : Bool) (t : HNode) : HNode :=
  match fuel, t with
  | _, .text s => .text s
  | 0, .elem tag attrs cs => .elem tag attrs cs
  | n + 1, .elem tag attrs cs =>
    if tag == "code" && inPre then
      let lang := (getAttr attrs "class").getD ""
      let res := highlightHelper hl auto (textOfNode (.elem tag attrs cs)) lang
      .elem tag (addClassHljs attrs) [.text res]
    else
      .elem tag attrs (cs.map (formatRichTextNodeF n hl auto (inPre || tag == "pre")))

/-- formatRichText of the source, at the document root. -/
def formatRichText (hl : String → String → Option String)
    (auto : String → String) (t : HNode) : HNode :=
  formatRichTextNodeF (sizeHN t) hl auto false t

/-- Every code element that has a pre ancestor carries the hljs marker
class: the invariant the highlighter establishes. -/
inductive AllCodeTagged : Bool → HNode → Prop where
  | text (inPre : Bool) (s : String) : AllCodeTagged inPre (.text s)
  | elem (inPre : Bool) (tag : String) (attrs : List (String × String))
      (cs : List HNode)
      (hcode : tag = "code" → inPre = true →
        hasWordHljs ((getAttr attrs "class").getD "").data = true)
      (hchildren : ∀ c ∈ cs, AllCodeTagged (inPre || tag == "pre") c) :
      AllCodeTagged inPre (.elem tag attrs cs)

/-- A whitespace character never equals a non-whitespace character under
Boolean equality. -/
theorem jsWs_beq_false {c d : Char} (hc : jsWs c = true) (hd : jsWs d = false) :
    (c == d) = false := by
  cases h : c == d
  · rfl
  · rw [eq_of_beq h] at hc
    rw [hc] at hd
    exact hd

/-- Dropping whitespace from an all-whitespace list leaves nothing. -/
theorem dropWhile_allWs {l : List Char} (h : l.all jsWs = true) :
    l.dropWhile jsWs = [] := by
  induction l with
  | nil => rfl
  | cons c rest ih =>
    simp only [List.all_cons, Bool.and_eq_true] at h
    simp [List.dropWhile_cons, h.1, ih h.2]

/-- Line-start suffixes of an all-whitespace list are all-whitespace. -/
theorem allWs_of_mem_lineStarts {l m : List Char} (h : l.all jsWs = true)
    (hm : m ∈ lineStarts l) : m.all jsWs = true := by
  induction l with
  | nil => simp [lineStarts] at hm
  | cons c rest ih =>
    simp only [List.all_cons, Bool.and_eq_true] at h
    simp only [lineStarts, List.mem_append] at hm
    rcases hm with hm | hm
    · by_cases ht : isLineTerm c = true
      · simp only [ht, if_true, List.mem_singleton] at hm
        subst hm
        exact h.2
      · simp [ht] at hm
    · exact ih h.2 hm

/-- A multiline matcher whose anchored form rejects every all-whitespace
suffix rejects an all-whitespace text. -/
theorem multiline_ws {p : List Char → Bool}
    (hp : ∀ m : List Char, m.all jsWs = true → p m = false)
    {l : List Char} (h : l.all jsWs = true) : multiline p l = false := by
  unfold multiline
  rw [hp l h]
  simp only [Bool.false_or, List.any_eq_false]
  intro m hm
  rw [hp m (allWs_of_mem_lineStarts h hm)]
  simp

/-- A scanning matcher whose anchored form rejects every all-whitespace
suffix rejects an all-whitespace text. -/
theorem scanP_ws {p : List Char → Bool}
    (hp : ∀ m : List Char, m.all jsWs = true → p m = false)
    {l : List Char} (h : l.all jsWs = true) : scanP p l = false := by
  induction l with
  | nil => simpa [scanP] using hp [] rfl
  | cons c rest ih =>
    have hcons : (c :: rest).all jsWs = true := h
    simp only [List.all_cons, Bool.and_eq_true] at h
    simp [scanP, hp _ hcons, ih h.2]

/-- The heading matcher rejects all-whitespace suffixes. -/
theorem headingAt_ws {m : List Char} (h : m.all jsWs = true) :
    headingAt m = false := by
  rcases m with _ | ⟨c, rest⟩
  · rfl
  · simp only [List.all_cons, Bool.and_eq_true] at h
    unfold headingAt headingAfter
    rw [jsWs_beq_false h.1 (by decide)]
    simp

/-- The unordered-list matcher rejects all-whitespace suffixes. -/
theorem listAt_ws {m : List Char} (h : m.all jsWs = true) :
    listAt m = false := by
  unfold listAt
  rw [dropWhile_allWs h]

/-- The ordered-list matcher rejects all-whitespace suffixes. -/
theorem orderedAt_ws {m : List Char} (h : m.all jsWs = true) :
    orderedAt m = false := by
  unfold orderedAt
  rw [dropWhile_allWs h]

/-- The fenced-code matcher rejects all-whitespace suffixes. -/
theorem codeBlockAt_ws {m : List Char} (h : m.all jsWs = true) :
    codeBlockAt m = false := by
  rcases m with _ | ⟨a, _ | ⟨b, _ | ⟨c, rest⟩⟩⟩
  · rfl
  · rfl
  · rfl
  · simp only [List.all_cons, Bool.and_eq_true] at h
    have hb : (a == tickChar) = false := jsWs_beq_false h.1 (by decide)
    simp [codeBlockAt, hb]

/-- The inline-code matcher rejects all-whitespace suffixes. -/
theorem inlineCodeAt_ws {m : List Char} (h : m.all jsWs = true) :
    inlineCodeAt m = false := by
  rcases m with _ | ⟨a, _ | ⟨b, rest⟩⟩
  · rfl
  · rfl
  · simp only [List.all_cons, Bool.and_eq_true] at h
    have hb : (a == tickChar) = false := jsWs_beq_false h.1 (by decide)
    simp [inlineCodeAt, hb]

/-- The link matcher rejects all-whitespace suffixes. -/
theorem linkAt_ws {m : List Char} (h : m.all jsWs = true) :
    linkAt m = false := by
  rcases m with _ | ⟨a, _ | ⟨b, rest⟩⟩
  · rfl
  · rfl
  · simp only [List.all_cons, Bool.and_eq_true] at h
    have hb : (a == '[') = false := jsWs_beq_false h.1 (by decide)
    simp [linkAt, hb]

/-- The image matcher rejects all-whitespace suffixes. -/
theorem imageAt_ws {m : List Char} (h : m.all jsWs = true) :
    imageAt m = false := by
  rcases m with _ | ⟨a, _ | ⟨b, rest⟩⟩
  · rfl
  · rfl
  · simp only [List.all_cons, Bool.and_eq_true] at h
    have hb : (a == '!') = false := jsWs_beq_false h.1 (by decide)
    simp [imageAt, hb]

/-- The double-star bold matcher rejects all-whitespace suffixes. -/
theorem boldAt_ws {m : List Char} (h : m.all jsWs = true) :
    boldAt m = false := by
  rcases m with _ | ⟨a, _ | ⟨b, _ | ⟨c, rest⟩⟩⟩
  · rfl
  · rfl
  · rfl
  · simp only [List.all_cons, Bool.and_eq_true] at h
    have hb : (a == '*') = false := jsWs_beq_false h.1 (by decide)
    simp [boldAt, hb]

/-- The single-star italic matcher rejects all-whitespace suffixes. -/
theorem italicAt_ws {m : List Char} (h : m.all jsWs = true) :
    italicAt m = false := by
  rcases m with _ | ⟨a, _ | ⟨b, rest⟩⟩
  · rfl
  · rfl
  · simp only [List.all_cons, Bool.and_eq_true] at h
    have hb : (a == '*') = false := jsWs_beq_false h.1 (by decide)
    simp [italicAt, hb]

/-- The double-underscore bold matcher rejects all-whitespace suffixes. -/
theorem boldUnderAt_ws {m : List Char} (h : m.all jsWs = true) :
    boldUnderAt m = false := by
  rcases m with _ | ⟨a, _ | ⟨b, _ | ⟨c, rest⟩⟩⟩
  · rfl
  · rfl
  · rfl
  · simp only [List.all_cons, Bool.and_eq_true] at h
    have hb : (a == '_') = false := jsWs_beq_false h.1 (by decide)
    simp [boldUnderAt, hb]

/-- The single-underscore italic matcher rejects all-whitespace suffixes. -/
theorem italicUnderAt_ws {m : List Char} (h : m.all jsWs = true) :
    italicUnderAt m = false := by
  rcases m with _ | ⟨a, _ | ⟨b, rest⟩⟩
  · rfl
  · rfl
  · simp only [List.all_cons, Bool.and_eq_true] at h
    have hb : (a == '_') = false := jsWs_beq_false h.1 (by decide)
    simp [italicUnderAt, hb]

/-- The blockquote matcher rejects all-whitespace suffixes. -/
theorem quoteAt_ws {m : List Char} (h : m.all jsWs = true) :
    quoteAt m = false := by
  rcases m with _ | ⟨a, _ | ⟨b, rest⟩⟩
  · rfl
  · rfl
  · simp only [List.all_cons, Bool.and_eq_true] at h
    have hb : (a == '>') = false := jsWs_beq_false h.1 (by decide)
    simp [quoteAt, hb]

/-- The horizontal-rule matcher rejects all-whitespace suffixes. -/
theorem hrAt_ws {m : List Char} (h : m.all jsWs = true) :
    hrAt m = false := by
  rcases m with _ | ⟨c, rest⟩
  · rfl
  · simp only [List.all_cons, Bool.and_eq_true] at h
    unfold hrAt hrAfterDashes
    rw [jsWs_beq_false h.1 (by decide)]
    simp

/-- The table-row matcher rejects all-whitespace suffixes. -/
theorem tableAt_ws {m : List Char} (h : m.all jsWs = true) :
    tableAt m = false := by
  unfold tableAt
  rw [dropWhile_allWs h]

/-- The checked-checkbox matcher rejects all-whitespace suffixes. -/
theorem checkboxXAt_ws {m : List Char} (h : m.all jsWs = true) :
    checkboxXAt m = false := by
  unfold checkboxXAt
  rw [dropWhile_allWs h]

/-- The unchecked-checkbox matcher rejects all-whitespace suffixes. -/
theorem checkboxBlankAt_ws {m : List Char} (h : m.all jsWs = true) :
    checkboxBlankAt m = false := by
  unfold checkboxBlankAt
  rw [dropWhile_allWs h]

/-- On an all-whitespace text no Markdown pattern fires. -/
theorem countMarkdownPatterns_ws {l : List Char} (h : l.all jsWs = true) :
    (MARKDOWN_PATTERNS.filter (fun p => p l)).length = 0 := by
  have h1 := multiline_ws (fun m hm => headingAt_ws hm) h
  have h2 := multiline_ws (fun m hm => listAt_ws hm) h
  have h3 := multiline_ws (fun m hm => orderedAt_ws hm) h
  have h4 := scanP_ws (fun m hm => codeBlockAt_ws hm) h
  have h5 := scanP_ws (fun m hm => inlineCodeAt_ws hm) h
  have h6 := scanP_ws (fun m hm => linkAt_ws hm) h
  have h7 := scanP_ws (fun m hm => imageAt_ws hm) h
  have h8 := scanP_ws (fun m hm => boldAt_ws hm) h
  have h9 := scanP_ws (fun m hm => italicAt_ws hm) h
  have h10 := scanP_ws (fun m hm => boldUnderAt_ws hm) h
  have h11 := scanP_ws (fun m hm => italicUnderAt_ws hm) h
  have h12 := multiline_ws (fun m hm => quoteAt_ws hm) h
  have h13 := multiline_ws (fun m hm => hrAt_ws hm) h
  have h14 := multiline_ws (fun m hm => tableAt_ws hm) h
  have h15 := multiline_ws (fun m hm => checkboxXAt_ws hm) h
  have h16 := multiline_ws (fun m hm => checkboxBlankAt_ws hm) h
  simp [MARKDOWN_PATTERNS, List.filter, h1, h2, h3, h4, h5, h6, h7, h8, h9,
    h10, h11, h12, h13, h14, h15, h16]

/-- The trimmed text is empty exactly when every character is
whitespace. -/
theorem jsTrim_eq_nil_iff {l : List Char} :
    jsTrim l = [] ↔ l.all jsWs = true := by
  unfold jsTrim
  constructor
  · intro h
    rw [List.reverse_eq_nil_iff, List.dropWhile_eq_nil_iff] at h
    rw [List.all_eq_true]
    intro x hx
    have hx2 : x ∈ l.takeWhile jsWs ++ l.dropWhile jsWs := by
      rw [List.takeWhile_append_dropWhile]
      exact hx
    rcases List.mem_append.mp hx2 with h1 | h1
    · exact List.mem_takeWhile_imp h1
    · exact h x (List.mem_reverse.mpr h1)
  · intro h
    rw [dropWhile_allWs h]
    rfl

/-- When the scan after an opening tag finds a closing angle bracket, one
occurs in the list. -/
theorem findTagEnd_hasGt {l r : List Char} (h : findTagEnd l = some r) :
    hasGtC l = true := by
  induction l with
  | nil => simp [findTagEnd] at h
  | cons c rest ih =>
    rw [findTagEnd] at h
    by_cases hc : (c == '>') = true
    · simp [hasGtC, List.any_cons, hc]
    · rw [if_neg (by simp [hc])] at h
      have := ih h
      simp [hasGtC, List.any_cons] at this ⊢
      right
      exact this

/-- A positive tag count implies that the tag-presence regex fires. -/
theorem scanTag_of_countPos :
    ∀ (n : Nat) (l : List Char), l.length ≤ n →
      0 < countHtmlTagsFuel n l → scanP tagAt l = true := by
  intro n
  induction n with
  | zero =>
    intro l hl hc
    simp [countHtmlTagsFuel] at hc
  | succ n ih =>
    intro l hl hc
    rcases l with _ | ⟨a, _ | ⟨b, rest⟩⟩
    · simp [countHtmlTagsFuel] at hc
    · simp [countHtmlTagsFuel] at hc
    · rw [countHtmlTagsFuel] at hc
      by_cases hab : (a == '<' && isTagLetter b) = true
      · rw [if_pos hab] at hc
        cases hf : findTagEnd rest with
        | some suffix =>
          have hgt := findTagEnd_hasGt hf
          simp only [Bool.and_eq_true] at hab
          simp [scanP, tagAt, hab.1, hab.2, hgt]
        | none =>
          rw [hf] at hc
          have hlen : (b :: rest).length ≤ n := by
            simp at hl ⊢
            omega
          have hs := ih (b :: rest) hlen hc
          rw [scanP, hs]
          simp
      · rw [if_neg hab] at hc
        have hlen : (b :: rest).length ≤ n := by
          simp at hl ⊢
          omega
        have hs := ih (b :: rest) hlen hc
        rw [scanP, hs]
        simp

/-- Claim C2: for every non-empty string in which at least two distinct
Markdown pattern categories match and fewer than 5 HTML-tag occurrences
are counted, isMarkdown classifies the string as Markdown. -/
theorem isMarkdown_two_patterns_few_tags (s : String) (hne : s.data ≠ [])
    (hp : 2 ≤ countMarkdownPatterns s) (ht : countHtmlTags s < 5) :
    isMarkdown s = true := by
  have hws : s.data.all jsWs = false := by
    cases hall : s.data.all jsWs
    · rfl
    · exfalso
      have h0 : countMarkdownPatterns s = 0 := countMarkdownPatterns_ws hall
      omega
  have h1 : s.data.isEmpty = false := by
    cases hd : s.data
    · exact absurd hd hne
    · rfl
  have h2 : (jsTrim s.data).isEmpty = false := by
    cases hjt : (jsTrim s.data).isEmpty
    · rfl
    · exfalso
      have hnil : jsTrim s.data = [] := by
        cases hl : jsTrim s.data
        · rfl
        · rw [hl] at hjt
          simp at hjt
      have hall := jsTrim_eq_nil_iff.mp hnil
      rw [hws] at hall
      exact absurd hall (by simp)
  unfold isMarkdown
  rw [h1, h2]
  cases hH : hasHtmlTags s
  · simp only [Bool.or_self, Bool.false_eq_true, if_false, decide_eq_true_eq]
    omega
  · simp only [Bool.or_self, Bool.false_eq_true, if_false, if_true,
      Bool.and_eq_true, decide_eq_true_eq, MARKDOWN_DETECTION_THRESHOLD]
    omega

/-- Concrete instance of claim C2 at the two-pattern tag-free input used as
witness. -/
theorem isMarkdown_two_patterns_few_tags_witness :
    "# a\n- b".data ≠ [] ∧ 2 ≤ countMarkdownPatterns "# a\n- b" ∧
      countHtmlTags "# a\n- b" < 5 ∧ isMarkdown "# a\n- b" = true :=
  ⟨by decide, by decide, by decide,
    isMarkdown_two_patterns_few_tags _ (by decide) (by decide) (by decide)⟩

/-- Claim C3: for every string in which 5 or more HTML-tag occurrences are
counted, isMarkdown classifies the string as HTML, regardless of the
Markdown pattern count. -/
theorem isMarkdown_five_tags (s : String) (ht : 5 ≤ countHtmlTags s) :
    isMarkdown s = false := by
  unfold isMarkdown
  cases hg : (s.data.isEmpty || (jsTrim s.data).isEmpty)
  · have hH : hasHtmlTags s = true := by
      unfold hasHtmlTags
      refine scanTag_of_countPos s.data.length s.data le_rfl ?_
      unfold countHtmlTags at ht
      omega
    rw [hH]
    simp only [Bool.false_eq_true, if_false, if_pos rfl]
    have hnlt : ¬ countHtmlTags s < MARKDOWN_DETECTION_THRESHOLD.MAX_HTML_TAGS := by
      have : MARKDOWN_DETECTION_THRESHOLD.MAX_HTML_TAGS = 5 := rfl
      omega
    simp [hnlt]
  · simp

/-- Concrete instance of claim C3 at a five-tag input. -/
theorem isMarkdown_five_tags_witness :
    5 ≤ countHtmlTags "<a><b><i><u><p>" ∧ isMarkdown "<a><b><i><u><p>" = false :=
  ⟨by decide, isMarkdown_five_tags _ (by decide)⟩

/-- Claim C4: for every string that is empty or consists only of
whitespace, isMarkdown classifies it as HTML. -/
theorem isMarkdown_blank (s : String)
    (h : s.data = [] ∨ s.data.all jsWs = true) : isMarkdown s = false := by
  unfold isMarkdown
  rcases h with h | h
  · simp [h]
  · have hnil : jsTrim s.data = [] := jsTrim_eq_nil_iff.mpr h
    simp [hnil]

/-- Concrete instance of claim C4 at a whitespace-only input. -/
theorem isMarkdown_blank_witness :
    (" \t ".data = [] ∨ " \t ".data.all jsWs = true) ∧ isMarkdown " \t " = false :=
  ⟨Or.inr (by decide), isMarkdown_blank _ (Or.inr (by decide))⟩

/-- Claim C5 counterexample: the pattern library does not consist of 15
matchers — the checked and unchecked checkbox regexes are separate
entries, so the list has 16. -/
theorem markdown_patterns_not_fifteen : ¬ MARKDOWN_PATTERNS.length = 15 := by
  decide

/-- Claim C5 as amended: the pattern library consists of exactly 16
matchers (the 15 listed categories with the checked and unchecked
checkbox as two separate entries), and countMarkdownPatterns is bounded
by 16. -/
theorem markdown_patterns_sixteen :
    MARKDOWN_PATTERNS.length = 16 ∧ ∀ s : String, countMarkdownPatterns s ≤ 16 := by
  constructor
  · rfl
  · intro s
    unfold countMarkdownPatterns
    calc (MARKDOWN_PATTERNS.filter (fun p => p s.data)).length
        ≤ MARKDOWN_PATTERNS.length := List.length_filter_le _ _
      _ = 16 := rfl

/-- Claim C1: for every content string and every type hint, the value
returned by formatContent is formatRichText applied to some intermediate
string — whatever the external renderers do, every branch ends in the
highlighter. -/
theorem formatContent_highlights_last (fmtRich fmtMd reduce : String → String)
    (content : String) (contentType : ContentType) :
    ∃ mid : String,
      formatContent fmtRich fmtMd reduce content contentType = fmtRich mid := by
  unfold formatContent processMarkdownContent formatMarkdownWithHighlight
  by_cases h1 : normalizeContentType contentType = some "markdown"
  · simp only [h1, if_pos rfl, if_true]
    by_cases h2 : hasHtmlTags content = true
    · rw [if_pos h2]
      exact ⟨_, rfl⟩
    · rw [if_neg h2]
      exact ⟨_, rfl⟩
  · simp only [if_neg h1]
    by_cases h2 : normalizeContentType contentType = some "html"
    · rw [if_pos h2]
      exact ⟨_, rfl⟩
    · rw [if_neg h2]
      by_cases h3 : isMarkdown content = true
      · rw [if_pos h3]
        exact ⟨_, rfl⟩
      · rw [if_neg h3]
        exact ⟨_, rfl⟩

/-- Claim C8: a non-empty sequence hint behaves exactly like its first
element alone; in particular the sequence markdown-then-html behaves like
the plain markdown hint. -/
theorem formatContent_array_head (fmtRich fmtMd reduce : String → String)
    (content : String) (hd : String) (tl : List String) :
    formatContent fmtRich fmtMd reduce content (.arr (hd :: tl)) =
        formatContent fmtRich fmtMd reduce content (.str hd) ∧
      formatContent fmtRich fmtMd reduce content (.arr ["markdown", "html"]) =
        formatContent fmtRich fmtMd reduce content (.str "markdown") :=
  ⟨rfl, rfl⟩

/-- Claim C10: an empty sequence hint normalizes to an absent hint, so
formatContent takes the auto-detection path and agrees with the call that
passes no hint at all. -/
theorem formatContent_empty_array (fmtRich fmtMd reduce : String → String)
    (content : String) :
    formatContent fmtRich fmtMd reduce content (.arr []) =
      formatContent fmtRich fmtMd reduce content .undef := rfl

/-- Claim C6: htmlToMarkdown never propagates a failure of the conversion
passes: when the internal pipeline raises, the original HTML string is
returned unchanged, and when it succeeds its result is returned. -/
theorem htmlToMarkdown_catches (convert : String → Except String String)
    (html : String) :
    (∀ e, convert html = .error e → htmlToMarkdown convert html = html) ∧
      (∀ md, convert html = .ok md → htmlToMarkdown convert html = md) := by
  constructor
  · intro e he
    unfold htmlToMarkdown
    rw [he]
  · intro md hm
    unfold htmlToMarkdown
    rw [hm]

/-- Concrete instance of claim C6: a failing conversion pass leaves the
input unchanged. -/
theorem htmlToMarkdown_catches_witness :
    htmlToMarkdown (fun _ => Except.error "boom") "<p>x</p>" = "<p>x</p>" :=
  (htmlToMarkdown_catches (fun _ => Except.error "boom") "<p>x</p>").1 "boom" rfl

/-- A two-item ordered list, the failing input of claim C9. -/
def olSampleDoc : HNode :=
  .elem "root" []
    [.elem "ol" [] [.elem "li" [] [.text "a"], .elem "li" [] [.text "b"]]]

/-- Claim C9: on a two-item ordered list the list pass emits `1. ` for both
items — the second item is numbered 1, not 2, because the first item was
already detached from the live tree when the second index was recomputed.
This evaluates the code at the failing input of the claim. -/
theorem convertLists_ordered_all_one :
    convertLists olSampleDoc =
        .elem "root" [] [.elem "ol" [] [.text "1. a\n", .text "1. b\n"]] ∧
      textOfNode (convertLists olSampleDoc) = "1. a\n1. b\n" :=
  ⟨rfl, rfl⟩

/-- Splitting a whitespace-free list yields that list as its only
token. -/
theorem splitWsL_nonWs {w : List Char} (h : w.all (fun c => !(jsWs c)) = true) :
    splitWsL w = [w] := by
  induction w with
  | nil => rfl
  | cons c rest ih =>
    simp only [List.all_cons, Bool.and_eq_true] at h
    have hc : jsWs c = false := by simpa using h.1
    unfold splitWsL
    rw [if_neg (by simp [hc]), ih h.2]

/-- Appending a space and a whitespace-free non-empty word makes the word
the last token of the split, whatever precedes it. -/
theorem splitWsL_append_word (w : List Char) (_hw : w ≠ [])
    (hnws : w.all (fun c => !(jsWs c)) = true) :
    ∀ l : List Char, ∃ ts, ts ≠ [] ∧ splitWsL (l ++ ' ' :: w) = ts ++ [w] := by
  intro l
  induction l with
  | nil =>
    refine ⟨[[]], by simp, ?_⟩
    show splitWsL (' ' :: w) = [[]] ++ [w]
    unfold splitWsL
    rw [if_pos (by decide), splitWsL_nonWs hnws]
    rfl
  | cons c rest ih =>
    obtain ⟨ts, hne, hts⟩ := ih
    by_cases hc : jsWs c = true
    · refine ⟨[] :: ts, by simp, ?_⟩
      show splitWsL (c :: (rest ++ ' ' :: w)) = ([] :: ts) ++ [w]
      unfold splitWsL
      rw [if_pos hc, hts]
      rfl
    · cases ts with
      | nil => exact absurd rfl hne
      | cons t ts2 =>
        refine ⟨(c :: t) :: ts2, by simp, ?_⟩
        show splitWsL (c :: (rest ++ ' ' :: w)) = ((c :: t) :: ts2) ++ [w]
        unfold splitWsL
        rw [if_neg hc, hts]
        rfl

/-- The hljs marker word is always listed after appending a space and the
word to a class value. -/
theorem hasWordHljs_append (l : List Char) :
    hasWordHljs (l ++ ' ' :: hljsWord) = true := by
  obtain ⟨ts, hne, hts⟩ := splitWsL_append_word hljsWord (by decide) (by decide) l
  unfold hasWordHljs
  rw [hts]
  simp

/-- When no class attribute exists, appending one holding hljs makes the
lookup return it. -/
theorem getAttr_append_hljs : ∀ (attrs : List (String × String)),
    getAttr attrs "class" = none →
    getAttr (attrs ++ [("class", "hljs")]) "class" = some "hljs" := by
  intro attrs h
  induction attrs with
  | nil => rfl
  | cons a rest ih =>
    rw [List.cons_append]
    unfold getAttr
    unfold getAttr at h
    by_cases ha : (a.1 == "class") = true
    · rw [if_pos ha] at h
      exact absurd h (by simp)
    · rw [if_neg ha] at h
      rw [if_neg ha]
      exact ih h

/-- Overwriting the class attribute makes the lookup return the new
value. -/
theorem getAttr_setAttrClass : ∀ (attrs : List (String × String)) (c v : String),
    getAttr attrs "class" = some c →
    getAttr (setAttrClass attrs v) "class" = some v := by
  intro attrs c v h
  induction attrs with
  | nil => cases h
  | cons a rest ih =>
    unfold getAttr at h
    unfold setAttrClass
    rw [List.map_cons]
    by_cases ha : (a.1 == "class") = true
    · rw [if_pos ha] at h
      unfold getAttr
      rw [if_pos ha]
      simp
    · rw [if_neg ha] at h
      unfold getAttr
      rw [if_neg ha, if_neg ha]
      exact ih h

/-- After addClass the class attribute always lists the hljs marker
word. -/
theorem hasWord_addClassHljs (attrs : List (String × String)) :
    hasWordHljs ((getAttr (addClassHljs attrs) "class").getD "").data = true := by
  cases hg : getAttr attrs "class" with
  | none =>
    simp only [addClassHljs, hg]
    rw [getAttr_append_hljs attrs hg]
    decide
  | some c =>
    by_cases hc : hasWordHljs c.data = true
    · simp only [addClassHljs, hg, if_pos hc]
      simpa using hc
    · simp only [addClassHljs, hg, if_neg hc]
      rw [getAttr_setAttrClass attrs c _ hg]
      have hdata : (c ++ " hljs").data = c.data ++ ' ' :: hljsWord := by
        rw [String.data_append]
        rfl
      simp only [Option.getD_some]
      rw [hdata]
      exact hasWordHljs_append c.data

/-- Every tree has positive size. -/
theorem sizeHN_pos (t : HNode) : 0 < sizeHN t := by
  cases t with
  | elem tag attrs cs => simp [sizeHN]
  | text s => simp [sizeHN]

/-- A member of a forest is no larger than the forest. -/
theorem sizeHN_le_of_mem {c : HNode} {cs : List HNode} (h : c ∈ cs) :
    sizeHN c ≤ sizeHNList cs := by
  induction cs with
  | nil => cases h
  | cons x xs ih =>
    rcases List.mem_cons.mp h with rfl | hx
    · simp only [sizeHNList]
      omega
    · have := ih hx
      simp only [sizeHNList]
      omega

/-- With sufficient fuel, the highlighter transformation leaves every code
element with a pre ancestor tagged with the hljs marker class. -/
theorem allCodeTagged_formatF (hl : String → String → Option String)
    (auto : String → String) :
    ∀ (n : Nat) (t : HNode) (inPre : Bool), sizeHN t ≤ n →
      AllCodeTagged inPre (formatRichTextNodeF n hl auto inPre t) := by
  intro n
  induction n with
  | zero =>
    intro t inPre hle
    exact absurd hle (by have := sizeHN_pos t; omega)
  | succ n ih =>
    intro t inPre hle
    cases t with
    | text s => exact AllCodeTagged.text inPre s
    | elem tag attrs cs =>
      simp only [formatRichTextNodeF]
      by_cases hc : (tag == "code" && inPre) = true
      · rw [if_pos hc]
        refine AllCodeTagged.elem _ _ _ _ ?_ ?_
        · intro _ _
          exact hasWord_addClassHljs attrs
        · intro c hcmem
          simp only [List.mem_singleton] at hcmem
          subst hcmem
          exact AllCodeTagged.text _ _
      · rw [if_neg hc]
        refine AllCodeTagged.elem _ _ _ _ ?_ ?_
        · intro h1 h2
          exfalso
          apply hc
          subst h1
          simp [h2]
        · intro c hcmem
          rw [List.mem_map] at hcmem
          obtain ⟨a, ha, rfl⟩ := hcmem
          refine ih a _ ?_
          have h1 := sizeHN_le_of_mem ha
          have h2 : sizeHN (HNode.elem tag attrs cs) = 1 + sizeHNList cs := by
            simp [sizeHN]
          omega

/-- Claim C7: for every tree and every behaviour of the external
highlighter, after formatRichText every code element with a pre ancestor
carries the hljs marker class; and the inner highlight helper falls back
to automatic detection both when the class value is absent or empty and
when the language-directed highlighter fails on the extracted token — so
no failure propagates. -/
theorem formatRichText_code_safe (hl : String → String → Option String)
    (auto : String → String) (t : HNode) :
    AllCodeTagged false (formatRichText hl auto t) ∧
      (∀ txt lang, lang = "" → highlightHelper hl auto txt lang = auto txt) ∧
      (∀ txt lang, hl (extractLanguage lang) txt = none →
        highlightHelper hl auto txt lang = auto txt) := by
  refine ⟨?_, ?_, ?_⟩
  · exact allCodeTagged_formatF hl auto (sizeHN t) t false le_rfl
  · intro txt lang h
    subst h
    rfl
  · intro txt lang hnone
    unfold highlightHelper
    by_cases he : (lang == "") = true
    · rw [if_pos he]
    · rw [if_neg he, hnone]

/-- A highlighter that always fails, used in the concrete instance of
claim C7. -/
def hlNoneW : String → String → Option String := fun _ _ => none

/-- An automatic-detection stub, used in the concrete instance of
claim C7. -/
def autoW : String → String := fun t => String.append "auto:" t

/-- A pre and code pair with an unrecognized language token, the concrete
input of the claim C7 instance. -/
def preDocW : HNode :=
  .elem "pre" [] [.elem "code" [("class", "language-zz")] [.text "x = 1"]]

/-- Concrete instance of claim C7: with a failing language-directed
highlighter, the code element is still tagged and both fallback cases
yield automatic detection. -/
theorem formatRichText_code_safe_witness :
    AllCodeTagged false (formatRichText hlNoneW autoW preDocW) ∧
      highlightHelper hlNoneW autoW "x = 1" "" = autoW "x = 1" ∧
      highlightHelper hlNoneW autoW "x = 1" "language-zz" = autoW "x = 1" :=
  ⟨(formatRichText_code_safe hlNoneW autoW preDocW).1,
   (formatRichText_code_safe hlNoneW autoW preDocW).2.1 "x = 1" "" rfl,
   (formatRichText_code_safe hlNoneW autoW preDocW).2.2 "x = 1" "language-zz" rfl⟩
